import Mathlib

/-!
Shallow embedding of the text-to-structure extraction core of the invoice
OCR program (src/streamlitx.py).  Text is modelled as `List Char`; every
regular expression of the source is translated into an explicit scanning
function with Python `re` semantics (leftmost match, alternatives tried in
order, greedy quantifiers with backtracking where the pattern requires it).
Image handling and the OCR engine are external collaborators: the embedded
functions consume the text, the token stream, and the image dimensions that
those collaborators produce.
-/

namespace Invoice

/-- Python ASCII whitespace class, used for the regex class of whitespace
characters and for the built-in strip of strings. -/
def isSpaceCh (c : Char) : Bool :=
  c = ' ' || c = '\t' || c = '\n' || c = '\r' || c = '\x0b' || c = '\x0c'

/-- Python str.strip(): remove whitespace from both ends. -/
def stripChars (cs : List Char) : List Char :=
  ((cs.dropWhile isSpaceCh).reverse.dropWhile isSpaceCh).reverse

/-- Lowercase every character, as Python str.lower() on ASCII text. -/
def lowerStr (cs : List Char) : List Char := cs.map Char.toLower

/-- Python str.splitlines(): split at newline boundaries; the text after the
last boundary forms a final line only when it is nonempty. -/
def splitLinesAux : List Char → List Char → List (List Char)
  | [], acc => if acc = [] then [] else [acc.reverse]
  | '\r' :: '\n' :: t, acc => acc.reverse :: splitLinesAux t []
  | '\r' :: t, acc => acc.reverse :: splitLinesAux t []
  | '\n' :: t, acc => acc.reverse :: splitLinesAux t []
  | c :: t, acc => splitLinesAux t (c :: acc)

/-- The line list of extract_vendor: txt.splitlines() with each line stripped. -/
def linesOf (txt : List Char) : List (List Char) :=
  (splitLinesAux txt []).map stripChars

/-- Condition of tier 1 of extract_vendor, line 57 of the source:
ln.lower().startswith with the label text, and ln with trailing colons
removed, stripped and lowered, equal to the bare label. -/
def isSellerLabel (ln : List Char) : Bool :=
  ("seller:".data.isPrefixOf (lowerStr ln)) &&
    (lowerStr (stripChars ((ln.reverse.dropWhile (fun c => c = ':')).reverse))
      == "seller".data)

/-- Inner loop of tier 1 (lines 59-64): first subsequent line that is
nonempty and does not start with the counter-party label. -/
def firstQualifying : List (List Char) → Option (List Char)
  | [] => none
  | ln :: rest =>
    if ln = [] then firstQualifying rest
    else if "client".data.isPrefixOf (lowerStr ln) then firstQualifying rest
    else some ln

/-- Outer loop of tier 1 (lines 56-64): at each label line run the inner
scan; when the inner scan is empty the outer loop keeps going. -/
def tier1 : List (List Char) → Option (List Char)
  | [] => none
  | ln :: rest =>
    if isSellerLabel ln then
      match firstQualifying rest with
      | some v => some v
      | none => tier1 rest
    else tier1 rest

/-- Anchored match of the inline-label pattern of tier 2 (line 67): the
label Seller or Vendor, optional whitespace, a colon or hyphen, optional
whitespace, then a nonempty remainder which is capture group 1. -/
def matchInline (ln : List Char) : Option (List Char) :=
  let l := lowerStr ln
  let afterLabel : Option (List Char) :=
    if "seller".data.isPrefixOf l then some (ln.drop 6)
    else if "vendor".data.isPrefixOf l then some (ln.drop 6)
    else none
  match afterLabel with
  | none => none
  | some r1 =>
    match r1.dropWhile isSpaceCh with
    | c :: r3 =>
      if c = ':' || c = '-' then
        let r4 := r3.dropWhile isSpaceCh
        if r4 = [] then none else some r4
      else none
    | [] => none

/-- Tier 2 loop (lines 66-71): the first inline match whose captured name,
stripped, is not the counter-party label, is returned stripped. -/
def tier2 : List (List Char) → Option (List Char)
  | [] => none
  | ln :: rest =>
    match matchInline ln with
    | some cap =>
      let name := stripChars cap
      if lowerStr name == "client".data then tier2 rest else some name
    | none => tier2 rest

/-- Tier 3 fallback (lines 73-75): first nonempty line holding no digit. -/
def tier3 : List (List Char) → Option (List Char)
  | [] => none
  | ln :: rest =>
    if ln ≠ [] && !(ln.any Char.isDigit) then some ln else tier3 rest

/-- extract_vendor (lines 48-76): three tiers evaluated in order. -/
def extract_vendor (txt : List Char) : Option (List Char) :=
  let lines := linesOf txt
  match tier1 lines with
  | some v => some v
  | none =>
    match tier2 lines with
    | some v => some v
    | none => tier3 lines

/-- Case-insensitive literal matcher: consume the pattern characters,
returning the remaining input, or fail. -/
def matchLitCI : List Char → List Char → Option (List Char)
  | [], cs => some cs
  | p :: ps, c :: cs => if c.toLower = p.toLower then matchLitCI ps cs else none
  | _ :: _, [] => none

/-- Consume one or more digits (greedy), returning the run and the rest. -/
def digits1 (cs : List Char) : Option (List Char × List Char) :=
  let d := cs.takeWhile Char.isDigit
  if d = [] then none else some (d, cs.drop d.length)

/-- Match at one position the first invoice-number pattern of line 35:
the word Invoice, optional whitespace, the word No, an optional dot, an
optional colon or hyphen, optional whitespace, then the digits of capture
group 1 (case-insensitive).  The optional atoms are committed when present:
no later atom of the pattern can consume a dot, a colon or a hyphen. -/
def matchInvNo1At (cs : List Char) : Option (List Char) := do
  let r1 ← matchLitCI "invoice".data cs
  let r2 := r1.dropWhile isSpaceCh
  let r3 ← matchLitCI "no".data r2
  let r4 := match r3 with | '.' :: t => t | t => t
  let r5 := match r4 with | ':' :: t => t | '-' :: t => t | t => t
  let r6 := r5.dropWhile isSpaceCh
  let (d, _) ← digits1 r6
  pure d

/-- Match at one position the second invoice-number pattern of line 35:
the word Inv, an optional hash, an optional colon or hyphen, optional
whitespace, then the digits of capture group 1 (case-insensitive). -/
def matchInvNo2At (cs : List Char) : Option (List Char) := do
  let r1 ← matchLitCI "inv".data cs
  let r2 := match r1 with | '#' :: t => t | t => t
  let r3 := match r2 with | ':' :: t => t | '-' :: t => t | t => t
  let r4 := r3.dropWhile isSpaceCh
  let (d, _) ← digits1 r4
  pure d

/-- Match at one position the third invoice-number pattern of line 35:
the word Invoice, optional whitespace, the word ID, an optional colon or
hyphen, optional whitespace, then the digits of capture group 1. -/
def matchInvNo3At (cs : List Char) : Option (List Char) := do
  let r1 ← matchLitCI "invoice".data cs
  let r2 := r1.dropWhile isSpaceCh
  let r3 ← matchLitCI "id".data r2
  let r4 := match r3 with | ':' :: t => t | '-' :: t => t | t => t
  let r5 := r4.dropWhile isSpaceCh
  let (d, _) ← digits1 r5
  pure d

/-- Python re.search: try the position matcher at every position from the
left; the first success wins. -/
def searchFirst (m : List Char → Option (List Char)) : List Char → Option (List Char)
  | [] => m []
  | c :: cs =>
    match m (c :: cs) with
    | some r => some r
    | none => searchFirst m cs

/-- Invoice-number part of extract_header (lines 34-39): the three patterns
are searched in order and the first pattern with a match wins. -/
def extract_inv_no (txt : List Char) : Option (List Char) :=
  match searchFirst matchInvNo1At txt with
  | some d => some d
  | none =>
    match searchFirst matchInvNo2At txt with
    | some d => some d
    | none => searchFirst matchInvNo3At txt

/-- Greedy split choices for a bounded run of one or two digits followed by
further pattern atoms: the two-digit choice is tried before the one-digit
choice, as the backtracking of the bounded quantifier does. -/
def twoDigitSplits : List Char → List (List Char × List Char)
  | c0 :: c1 :: rest =>
    if c0.isDigit && c1.isDigit then [([c0, c1], rest), ([c0], c1 :: rest)]
    else if c0.isDigit then [([c0], c1 :: rest)] else []
  | [c0] => if c0.isDigit then [([c0], [])] else []
  | [] => []

/-- First alternative of a list of candidates accepted by f. -/
def firstSome (f : α → Option β) : List α → Option β
  | [] => none
  | a :: as =>
    match f a with
    | some b => some b
    | none => firstSome f as

/-- Match at one position the numeric date pattern of line 41: one or two
digits, a slash, one or two digits, a slash, then two to four digits
(greedy); the full match is returned. -/
def matchNumDateAt (cs : List Char) : Option (List Char) :=
  firstSome (fun s1 =>
    match s1.2 with
    | '/' :: r2 =>
      firstSome (fun s2 =>
        match s2.2 with
        | '/' :: r4 =>
          let d3 := (r4.takeWhile Char.isDigit).take 4
          if 2 ≤ d3.length then some (s1.1 ++ '/' :: s2.1 ++ '/' :: d3) else none
        | _ => none) (twoDigitSplits r2)
    | _ => none) (twoDigitSplits cs)

/-- Match at one position the month-name date pattern of line 41: three to
nine letters, whitespace, one or two digits, a comma, optional whitespace,
then exactly four digits; the full match is returned.  A letter run longer
than nine or a digit run longer than two fails here under every backtracking
choice, because the shortened run still ends in a letter or a digit. -/
def matchMonthDateAt (cs : List Char) : Option (List Char) :=
  let letters := cs.takeWhile Char.isAlpha
  if 3 ≤ letters.length && letters.length ≤ 9 then
    let r1 := cs.drop letters.length
    let sp := r1.takeWhile isSpaceCh
    if sp = [] then none
    else
      let r2 := r1.drop sp.length
      let ds := r2.takeWhile Char.isDigit
      if ds.length = 1 || ds.length = 2 then
        match r2.drop ds.length with
        | ',' :: r3 =>
          let sp2 := r3.takeWhile isSpaceCh
          let r4 := r3.drop sp2.length
          let d4 := (r4.takeWhile Char.isDigit).take 4
          if d4.length = 4 then some (letters ++ sp ++ ds ++ ',' :: sp2 ++ d4)
          else none
        | _ => none
      else none
  else none

/-- Invoice-date part of extract_header (lines 40-45): the numeric pattern
is searched over the whole text before the month-name pattern is tried. -/
def extract_inv_dt (txt : List Char) : Option (List Char) :=
  match searchFirst matchNumDateAt txt with
  | some d => some d
  | none => searchFirst matchMonthDateAt txt

/-- extract_header (lines 30-46), text part: the OCR call on the cropped
header band is the external collaborator producing txt; the two fields are
decided independently. -/
def extract_header (txt : List Char) : Option (List Char) × Option (List Char) :=
  (extract_inv_no txt, extract_inv_dt txt)

/-- Truncation of a rational toward zero, as the Python int() call applied
to the products of height and fraction. -/
def pyInt (q : ℚ) : ℤ := q.num.tdiv q.den

/-- A crop box in the order of the PIL crop call: left, upper, right, lower. -/
structure Box where
  left : ℤ
  upper : ℤ
  right : ℤ
  lower : ℤ
deriving DecidableEq

/-- Error taxonomy of the region-selection contract of the spec. -/
inductive RegionErr
  | invalidRegion
deriving DecidableEq

/-- crop (lines 78-80): the full-width band of the image, with the vertical
extent computed from the fractions; the function performs no validation of
the fractions and has no failure path. -/
def crop (w h : ℕ) (top bot : ℚ) : Box :=
  ⟨0, pyInt (h * top), w, pyInt (h * bot)⟩

/-- Modelled from the spec: the region-selection contract of the claim for
section 4.1, which is absent from the code — it fails with InvalidRegion
exactly when a fraction is outside the unit interval or the top fraction is
not below the bottom fraction, and otherwise returns the band. -/
def crop_spec (w h : ℕ) (top bot : ℚ) : Except RegionErr Box :=
  if top < 0 ∨ 1 < top ∨ bot < 0 ∨ 1 < bot ∨ bot ≤ top then
    .error .invalidRegion
  else
    .ok ⟨0, pyInt (h * top), w, pyInt (h * bot)⟩

/-- One positioned OCR token, a row of the tabular OCR output consumed by
parse_entries; missing text becomes the empty list. -/
structure Tok where
  text : List Char
  block_num : ℕ
  par_num : ℕ
  line_num : ℕ
  word_num : ℕ
deriving DecidableEq

/-- Tokens surviving the dropna of line 84: rows whose text is present. -/
def keptToks (toks : List Tok) : List Tok :=
  toks.filter (fun t => !(t.text == []))

/-- Strict lexicographic order on the sort key of line 85. -/
def tokLT (a b : Tok) : Bool :=
  Nat.blt a.block_num b.block_num ||
    (a.block_num == b.block_num &&
      (Nat.blt a.par_num b.par_num ||
        (a.par_num == b.par_num &&
          (Nat.blt a.line_num b.line_num ||
            (a.line_num == b.line_num && Nat.blt a.word_num b.word_num)))))

/-- Stable insertion of a token into a key-sorted list: the new token goes
after every earlier token whose key is not greater. -/
def insTok (t : Tok) : List Tok → List Tok
  | [] => [t]
  | u :: us => if tokLT t u then t :: u :: us else u :: insTok t us

/-- The sort_values of line 85 on the four index columns; the relative
order of rows with a fully equal key is kept (a determinization of the
unspecified tie order of the pandas sort). -/
def sortToks (toks : List Tok) : List Tok :=
  toks.foldl (fun acc t => insTok t acc) []

/-- Insertion into a sorted duplicate-free key list. -/
def insertKey (k : ℕ) : List ℕ → List ℕ
  | [] => [k]
  | j :: js =>
    if k < j then k :: j :: js
    else if k = j then j :: js
    else j :: insertKey k js

/-- Group keys of the groupby of line 86: the distinct line_num values in
ascending order, as the default sorted grouping of pandas produces them. -/
def lineKeys (toks : List Tok) : List ℕ :=
  ((sortToks (keptToks toks)).map (fun t => t.line_num)).foldl
    (fun acc k => insertKey k acc) []

/-- The rows of one group of the groupby of line 86: the tokens with the
given line_num, in the order of the sorted table.  The grouping key is
line_num alone — block_num and par_num do not separate groups. -/
def cellToks (toks : List Tok) (k : ℕ) : List Tok :=
  (sortToks (keptToks toks)).filter (fun t => t.line_num == k)

/-- Join word texts with single spaces. -/
def joinSp : List (List Char) → List Char
  | [] => []
  | [w] => w
  | w :: ws => w ++ ' ' :: joinSp ws

/-- The logical lines of line 86: one joined text per distinct line_num, in
ascending line_num order. -/
def group_lines (toks : List Tok) : List (List Char) :=
  (lineKeys toks).map (fun k => joinSp ((cellToks toks k).map (fun t => t.text)))

/-- Substring test, as the Python in operator on strings. -/
def containsSeq (needle : List Char) : List Char → Bool
  | [] => needle.isPrefixOf []
  | c :: cs => needle.isPrefixOf (c :: cs) || containsSeq needle cs

/-- Anchored match of the numbered-entry pattern of line 91: optional
leading whitespace, one or more digits, a dot, then at least one
whitespace character. -/
def startsNumbered (ln : List Char) : Bool :=
  let r1 := ln.dropWhile isSpaceCh
  let d := r1.takeWhile Char.isDigit
  if d = [] then false
  else
    match r1.drop d.length with
    | '.' :: r2 =>
      match r2 with
      | c :: _ => isSpaceCh c
      | [] => false
    | _ => false

/-- Append a continuation line to the last entry (line 94). -/
def appendToLast (ents : List (List Char)) (ln : List Char) : List (List Char) :=
  match ents with
  | [] => []
  | _ => ents.dropLast ++ [ents.getLastD [] ++ ' ' :: ln]

/-- The entry loop of lines 87-95: a summary marker stops the walk when
requested, a numbered line starts a new entry, any other line extends the
last entry and is discarded when no entry exists yet. -/
def entriesLoop (stop : Bool) (ents : List (List Char)) : List (List Char) → List (List Char)
  | [] => ents
  | ln :: rest =>
    if stop && containsSeq "SUMMARY".data (ln.map Char.toUpper) then ents
    else if startsNumbered ln then entriesLoop stop (ents ++ [stripChars ln]) rest
    else if ents.isEmpty then entriesLoop stop ents rest
    else entriesLoop stop (appendToLast ents (stripChars ln)) rest

/-- parse_entries (lines 82-95), token-stream part: the OCR call on the
cropped region is the external collaborator producing the token rows. -/
def parse_entries (stop : Bool) (toks : List Tok) : List (List Char) :=
  entriesLoop stop [] (group_lines toks)

/-- Word character class of the word-boundary assertion in the regex of
line 108. -/
def isWordCh (c : Char) : Bool := c.isAlphanum || c = '_'

/-- The re.sub of line 108 removing the standalone word each
(case-insensitive, both ends at a word boundary); scanning resumes after a
removed occurrence with the original preceding character as context; fuel
bounds the recursion by the input length. -/
def removeEachF : ℕ → Option Char → List Char → List Char
  | 0, _, cs => cs
  | _ + 1, _, [] => []
  | f + 1, prev, c0 :: rest =>
    let bBefore := match prev with | none => true | some p => !(isWordCh p)
    match rest with
    | c1 :: c2 :: c3 :: rest4 =>
      if bBefore && c0.toLower = 'e' && c1.toLower = 'a' && c2.toLower = 'c'
          && c3.toLower = 'h'
          && (match rest4 with | d :: _ => !(isWordCh d) | [] => true) then
        removeEachF f (some c3) rest4
      else c0 :: removeEachF f (some c0) rest
    | _ => c0 :: removeEachF f (some c0) rest

/-- The word-removal pass with enough fuel for its input. -/
def removeEach (cs : List Char) : List Char := removeEachF cs.length none cs

/-- Greedy one-or-more repetition of a separator-digit group, the second
half of the first alternative of the numeric-token regex of line 109;
fuel bounds the recursion by the input length. -/
def grabGroups : ℕ → List Char → List Char × List Char
  | 0, cs => ([], cs)
  | f + 1, cs =>
    match cs with
    | c :: rest =>
      if (c = '.' || c = ',')
          && (match rest with | d :: _ => d.isDigit | [] => false) then
        let ds := rest.takeWhile Char.isDigit
        let (g, r) := grabGroups f (rest.drop ds.length)
        (c :: (ds ++ g), r)
      else ([], cs)
    | [] => ([], [])

/-- Match at one position the numeric-token regex of line 109, alternatives
in pattern order: a decimal number with one or more dot or comma groups, or
two integers split by one whitespace character, or an integer followed by a
percent sign.  Every alternative starts with a maximal digit run, and no
backtracking into that run can help, because each continuation atom rejects
a digit. -/
def matchNumTokAt (cs : List Char) : Option (List Char × List Char) :=
  let ds := cs.takeWhile Char.isDigit
  if ds = [] then none
  else
    let rest := cs.drop ds.length
    match grabGroups rest.length rest with
    | ([], _) =>
      let alt2 : Option (List Char × List Char) :=
        match rest with
        | c :: r2 =>
          if isSpaceCh c then
            let ds2 := r2.takeWhile Char.isDigit
            if ds2 = [] then none else some (ds ++ c :: ds2, r2.drop ds2.length)
          else none
        | [] => none
      match alt2 with
      | some m => some m
      | none =>
        match rest with
        | '%' :: r3 => some (ds ++ ['%'], r3)
        | _ => none
    | (g, r) => some (ds ++ g, r)

/-- The re.findall of line 109: scan from the left, emitting each match and
resuming right after it, advancing one position past a failure; fuel bounds
the recursion by the input length. -/
def findallNums : ℕ → List Char → List (List Char)
  | 0, _ => []
  | f + 1, cs =>
    match matchNumTokAt cs with
    | some (m, r) => m :: findallNums f r
    | none =>
      match cs with
      | [] => []
      | _ :: t => findallNums f t

/-- The numeric tokens of one entry text (line 109); the scan runs on the
entry before the removal of the word each, exactly as the source does. -/
def numToks (s : List Char) : List (List Char) := findallNums s.length s

/-- The re.sub of line 120: strip a leading entry number (optional
whitespace, digits, an optional dot, optional whitespace); without a digit
run the anchored pattern fails and the text is unchanged. -/
def stripLeadNum (cs : List Char) : List Char :=
  let r1 := cs.dropWhile isSpaceCh
  let d := r1.takeWhile Char.isDigit
  if d = [] then cs
  else
    let r2 := r1.drop d.length
    let r3 := match r2 with | '.' :: t => t | t => t
    r3.dropWhile isSpaceCh

/-- The re.sub of line 121: remove every integer together with one optional
trailing separator-digit group; fuel bounds the recursion by the length. -/
def removeNums : ℕ → List Char → List Char
  | 0, cs => cs
  | _ + 1, [] => []
  | f + 1, c :: rest =>
    if c.isDigit then
      let ds := (c :: rest).takeWhile Char.isDigit
      let r1 := (c :: rest).drop ds.length
      let r2 :=
        match r1 with
        | p :: q =>
          if (p = '.' || p = ',')
              && (match q with | d :: _ => d.isDigit | [] => false) then
            q.drop (q.takeWhile Char.isDigit).length
          else r1
        | [] => r1
      removeNums f r2
    else c :: removeNums f rest

/-- The re.sub of line 122 collapsing whitespace runs to a single space. -/
def collapseWsAux (prevSp : Bool) : List Char → List Char
  | [] => []
  | c :: rest =>
    if isSpaceCh c then
      if prevSp then collapseWsAux true rest else ' ' :: collapseWsAux true rest
    else c :: collapseWsAux false rest

/-- One extracted line item (lines 123-131). -/
structure LineItem where
  item_no : ℕ
  description : List Char
  quantity : List Char
  unit_price : List Char
  net_worth : List Char
  vat : List Char
  gross_worth : List Char
deriving DecidableEq

/-- The runtime error raised by indexing past the end of the match list. -/
inductive PyErr
  | indexOutOfRange
deriving DecidableEq

/-- The body of the entry loop of lines 106-131: the five positional reads
nums[0] through nums[4] raise an index error when fewer than five numeric
tokens were found; the vat field appends a percent sign unconditionally;
the description is the cleaned entry text. -/
def mkItem (x : ℕ) (entry : List Char) : Except PyErr LineItem :=
  let clean := removeEach entry
  let nums := numToks entry
  if 5 ≤ nums.length then
    let d1 := stripLeadNum clean
    let d2 := removeNums d1.length d1
    let d3 := (stripChars (collapseWsAux false d2)).filter (fun c => !(c == ','))
    .ok ⟨x, d3, nums.getD 0 [], nums.getD 1 [], nums.getD 2 [],
      nums.getD 3 [] ++ ['%'], nums.getD 4 []⟩
  else .error .indexOutOfRange

/-- The entry loop of extract_line_items: a raised index error propagates
and discards every item built so far. -/
def itemsLoop (x : ℕ) : List (List Char) → Except PyErr (List LineItem)
  | [] => .ok []
  | e :: rest =>
    match mkItem (x + 1) e with
    | .error err => .error err
    | .ok it =>
      match itemsLoop (x + 1) rest with
      | .error err => .error err
      | .ok its => .ok (it :: its)

/-- extract_line_items (lines 97-133), entry-list part: the crop and the
OCR grouping feed the entries; a malformed entry aborts the whole
extraction with no partial output. -/
def extract_line_items (entries : List (List Char)) : Except PyErr (List LineItem) :=
  itemsLoop 0 entries

/-- extract_line_items composed with the grouping of its body region. -/
def extract_line_items_toks (toks : List Tok) : Except PyErr (List LineItem) :=
  extract_line_items (parse_entries true toks)

/-- Python entry.split with a colon and maxsplit one, padded with an empty
string: the text before the first colon and the text after it. -/
def splitFirstColon : List Char → List Char × List Char
  | [] => ([], [])
  | ':' :: t => ([], t)
  | c :: t =>
    let kv := splitFirstColon t
    (c :: kv.1, kv.2)

/-- Condition of line 140: the anchored case-insensitive match of the word
Summary at the start of the entry. -/
def startsWithSummaryCI (cs : List Char) : Bool :=
  "summary".data.isPrefixOf (lowerStr cs)

/-- The summary loop of lines 138-143: skip entries starting with the
section header word, split the rest at the first colon, strip both halves,
keep order and duplicates. -/
def extract_summary_entries : List (List Char) → List (List Char × List Char)
  | [] => []
  | e :: rest =>
    if startsWithSummaryCI e then extract_summary_entries rest
    else
      let kv := splitFirstColon e
      (stripChars kv.1, stripChars kv.2) :: extract_summary_entries rest

/-- extract_summary (lines 136-144), token-stream part: grouping without
the summary stop, then the key-value loop. -/
def extract_summary (toks : List Tok) : List (List Char × List Char) :=
  extract_summary_entries (parse_entries false toks)

/-- Example token in block one, line one. -/
def tokA : Tok := ⟨"A".data, 1, 1, 1, 1⟩

/-- Example token in block two, also line one. -/
def tokB : Tok := ⟨"B".data, 2, 1, 1, 1⟩

theorem itemsLoop_err_of_mem (e : List Char) (he : (numToks e).length < 5) :
    ∀ (entries : List (List Char)) (x : ℕ), e ∈ entries →
      itemsLoop x entries = .error .indexOutOfRange := by
  intro entries
  induction entries with
  | nil => intro x h; exact absurd h (List.not_mem_nil e)
  | cons a rest ih =>
    intro x h
    rcases List.mem_cons.mp h with rfl | hmem
    · have hm : mkItem (x + 1) e = .error .indexOutOfRange := by
        simp only [mkItem]
        rw [if_neg (by omega)]
      unfold itemsLoop
      rw [hm]
    · have hr := ih (x + 1) hmem
      unfold itemsLoop
      cases hmk : mkItem (x + 1) a with
      | error err => cases err; rfl
      | ok it => rw [hr]

/-- C1: for every logical entry whose text has fewer than five
numeric-token matches, extract_line_items fails with the index-out-of-range
error, aborting the whole extraction and producing no line items at all. -/
theorem extract_line_items_insufficient_aborts
    (entries : List (List Char)) (e : List Char)
    (hmem : e ∈ entries) (hlt : (numToks e).length < 5) :
    extract_line_items entries = .error .indexOutOfRange :=
  itemsLoop_err_of_mem e hlt entries 0 hmem

theorem extract_line_items_insufficient_aborts_app :
    extract_line_items ["1. Widget 2 10.00 20.00 5% 21.00".data] =
      .error .indexOutOfRange :=
  extract_line_items_insufficient_aborts _ "1. Widget 2 10.00 20.00 5% 21.00".data
    (List.mem_singleton.mpr rfl) (by decide)

/-- C2 counterexample: the numeric-token scan of the entry text of the
claim does not yield the four tokens the claim lists. -/
theorem numToks_example_ne_claimed :
    numToks "1. Widget 2 10.00 20.00 5% 21.00".data ≠
      ["10.00".data, "20.00".data, "5%".data, "21.00".data] := by decide

/-- C2 (amended): the scan yields the four tokens 2 10, 00 20, 00 5 and
21.00 — the space-split-integer alternative fires first — so there are
still only four matches and the fewer-than-five condition is triggered,
aborting the extraction with the index error. -/
theorem numToks_example_actual :
    numToks "1. Widget 2 10.00 20.00 5% 21.00".data =
      ["2 10".data, "00 20".data, "00 5".data, "21.00".data] ∧
    (numToks "1. Widget 2 10.00 20.00 5% 21.00".data).length = 4 ∧
    extract_line_items ["1. Widget 2 10.00 20.00 5% 21.00".data] =
      .error .indexOutOfRange :=
  ⟨rfl, rfl, rfl⟩

theorem itemsLoop_ok_forall2 :
    ∀ (entries : List (List Char)) (x : ℕ) (items : List LineItem),
      itemsLoop x entries = .ok items →
      List.Forall₂ (fun e it => it.vat = (numToks e).getD 3 [] ++ ['%']) entries items := by
  intro entries
  induction entries with
  | nil =>
    intro x items h
    unfold itemsLoop at h
    cases h
    exact List.Forall₂.nil
  | cons e rest ih =>
    intro x items h
    unfold itemsLoop at h
    cases hmk : mkItem (x + 1) e with
    | error err => rw [hmk] at h; cases h
    | ok it =>
      rw [hmk] at h
      cases hr : itemsLoop (x + 1) rest with
      | error err => rw [hr] at h; cases h
      | ok its =>
        rw [hr] at h
        cases h
        refine List.Forall₂.cons ?_ (ih (x + 1) its hr)
        simp only [mkItem] at hmk
        split at hmk
        · cases hmk; rfl
        · cases hmk

/-- C5: in every successful extraction, each item's vat field is the fourth
collected numeric token of its entry with a percent sign appended
unconditionally — also when that token itself matched the
integer-followed-by-percent shape. -/
theorem line_items_vat_append_percent (entries : List (List Char)) (items : List LineItem)
    (h : extract_line_items entries = .ok items) :
    List.Forall₂ (fun e it => it.vat = (numToks e).getD 3 [] ++ ['%']) entries items :=
  itemsLoop_ok_forall2 entries 0 items h

theorem line_items_vat_append_percent_app :
    List.Forall₂ (fun (e : List Char) (it : LineItem) =>
        it.vat = (numToks e).getD 3 [] ++ ['%'])
      ["1. Widget 2,5 10.00 20.00 5% 21.00".data]
      [⟨1, "Widget %".data, "2,5".data, "10.00".data, "20.00".data,
        "5%%".data, "21.00".data⟩] :=
  line_items_vat_append_percent ["1. Widget 2,5 10.00 20.00 5% 21.00".data]
    [⟨1, "Widget %".data, "2,5".data, "10.00".data, "20.00".data,
      "5%%".data, "21.00".data⟩] rfl

/-- C7: when the numeric date pattern and the month-name date pattern both
match somewhere in the header text, the extractor returns the numeric
pattern's leftmost match, because the patterns are tried in list order and
text position only decides within one pattern. -/
theorem inv_dt_numeric_pattern_priority (txt d m : List Char)
    (hn : searchFirst matchNumDateAt txt = some d)
    (_hm : searchFirst matchMonthDateAt txt = some m) :
    extract_inv_dt txt = some d := by
  unfold extract_inv_dt
  rw [hn]

theorem inv_dt_numeric_pattern_priority_app :
    extract_inv_dt "March 14, 2024 and also 03/14/2024".data =
      some "03/14/2024".data :=
  inv_dt_numeric_pattern_priority _ _ "March 14, 2024".data rfl rfl

/-- C9: the summary extractor is the filter of entries not starting with
the section header word, mapped to stripped key-value pairs split at the
first colon (empty value when there is no colon), order preserved and
duplicates kept; the concrete entry list of the claim yields the two pairs
it states. -/
theorem extract_summary_filter_map :
    (∀ ents : List (List Char),
      extract_summary_entries ents =
        (ents.filter (fun e => !(startsWithSummaryCI e))).map
          (fun e => (stripChars (splitFirstColon e).1, stripChars (splitFirstColon e).2))) ∧
    extract_summary_entries ["Summary".data, "Subtotal: 100.00".data, "Tax: 5.00".data] =
      [("Subtotal".data, "100.00".data), ("Tax".data, "5.00".data)] := by
  constructor
  · intro ents
    induction ents with
    | nil => rfl
    | cons e rest ih =>
      cases h : startsWithSummaryCI e with
      | true => simp [extract_summary_entries, h, ih]
      | false => simp [extract_summary_entries, h, ih]
  · rfl

theorem entriesLoop_no_numbered :
    ∀ lines : List (List Char), (∀ ln ∈ lines, startsNumbered ln = false) →
      entriesLoop false [] lines = [] := by
  intro lines
  induction lines with
  | nil => intro _; rfl
  | cons ln rest ih =>
    intro h
    have h0 : startsNumbered ln = false := h ln (List.mem_cons_self ln rest)
    have hr : ∀ l ∈ rest, startsNumbered l = false :=
      fun l hl => h l (List.mem_cons_of_mem ln hl)
    simp only [entriesLoop, Bool.false_and, if_neg, h0]
    simpa using ih hr

/-- C10: when no logical line matches the numbered-entry pattern, the
grouping step yields zero entries (every line before the first numbered
entry is discarded), so the summary extractor returns an empty sequence
even when the region holds key-colon-value lines. -/
theorem parse_entries_no_numbered_empty (toks : List Tok)
    (h : ∀ ln ∈ group_lines toks, startsNumbered ln = false) :
    parse_entries false toks = [] ∧ extract_summary toks = [] := by
  have he : entriesLoop false [] (group_lines toks) = [] := entriesLoop_no_numbered _ h
  refine ⟨he, ?_⟩
  unfold extract_summary
  rw [show parse_entries false toks = [] from he]
  rfl

theorem parse_entries_no_numbered_empty_app :
    parse_entries false [⟨"Total:".data, 1, 1, 1, 1⟩, ⟨"100".data, 1, 1, 1, 2⟩] = [] ∧
    extract_summary [⟨"Total:".data, 1, 1, 1, 1⟩, ⟨"100".data, 1, 1, 1, 2⟩] = [] :=
  parse_entries_no_numbered_empty _ (by decide)

theorem self_mem_insTok (t : Tok) (l : List Tok) : t ∈ insTok t l := by
  induction l with
  | nil => simp [insTok]
  | cons u us ih =>
    rcases Bool.eq_false_or_eq_true (tokLT t u) with hb | hb <;>
      simp [insTok, hb, List.mem_cons, ih]

theorem mem_insTok_of_mem (t a : Tok) (l : List Tok) (h : a ∈ l) : a ∈ insTok t l := by
  induction l with
  | nil => cases h
  | cons u us ih =>
    by_cases hb : tokLT t u = true
    · simp only [insTok, if_pos hb]
      exact List.mem_cons_of_mem t h
    · simp only [insTok, if_neg hb]
      rcases List.mem_cons.mp h with rfl | hm
      · exact List.mem_cons_self a _
      · exact List.mem_cons_of_mem u (ih hm)

theorem mem_foldl_insTok (t : Tok) :
    ∀ (l acc : List Tok), t ∈ acc ∨ t ∈ l →
      t ∈ l.foldl (fun acc u => insTok u acc) acc := by
  intro l
  induction l with
  | nil =>
    intro acc h
    rcases h with h | h
    · exact h
    · cases h
  | cons u us ih =>
    intro acc h
    rcases h with h | h
    · exact ih (insTok u acc) (Or.inl (mem_insTok_of_mem u t acc h))
    · rcases List.mem_cons.mp h with rfl | hm
      · exact ih (insTok t acc) (Or.inl (self_mem_insTok t acc))
      · exact ih (insTok u acc) (Or.inr hm)

theorem mem_sortToks (t : Tok) (l : List Tok) (h : t ∈ l) : t ∈ sortToks l :=
  mem_foldl_insTok t l [] (Or.inr h)

theorem self_mem_insertKey (k : ℕ) (l : List ℕ) : k ∈ insertKey k l := by
  induction l with
  | nil => simp [insertKey]
  | cons j js ih =>
    by_cases h1 : k < j
    · simp [insertKey, h1]
    · by_cases h2 : k = j
      · simp [insertKey, h1, h2]
      · simp [insertKey, h1, h2, List.mem_cons, ih]

theorem mem_insertKey_of_mem (k m : ℕ) (l : List ℕ) (h : m ∈ l) : m ∈ insertKey k l := by
  induction l with
  | nil => cases h
  | cons j js ih =>
    by_cases h1 : k < j
    · simp only [insertKey, if_pos h1]
      exact List.mem_cons_of_mem k h
    · by_cases h2 : k = j
      · simpa [insertKey, h1, h2] using h
      · simp only [insertKey, if_neg h1, if_neg h2]
        rcases List.mem_cons.mp h with rfl | hm
        · exact List.mem_cons_self m _
        · exact List.mem_cons_of_mem j (ih hm)

theorem mem_foldl_insertKey (k : ℕ) :
    ∀ (l acc : List ℕ), k ∈ acc ∨ k ∈ l →
      k ∈ l.foldl (fun acc j => insertKey j acc) acc := by
  intro l
  induction l with
  | nil =>
    intro acc h
    rcases h with h | h
    · exact h
    · cases h
  | cons j js ih =>
    intro acc h
    rcases h with h | h
    · exact ih (insertKey j acc) (Or.inl (mem_insertKey_of_mem j k acc h))
    · rcases List.mem_cons.mp h with rfl | hm
      · exact ih (insertKey k acc) (Or.inl (self_mem_insertKey k acc))
      · exact ih (insertKey j acc) (Or.inr hm)

theorem mem_lineKeys_of_mem (toks : List Tok) (t : Tok) (h : t ∈ keptToks toks) :
    t.line_num ∈ lineKeys toks := by
  apply mem_foldl_insertKey
  right
  exact List.mem_map.mpr ⟨t, mem_sortToks t _ h, rfl⟩

theorem chain_insertKey (k : ℕ) :
    ∀ l : List ℕ, List.Chain' (fun a b => a < b) l →
      List.Chain' (fun a b => a < b) (insertKey k l) := by
  intro l
  induction l with
  | nil => intro _; simp [insertKey]
  | cons j js ih =>
    intro hch
    by_cases h1 : k < j
    · simp only [insertKey, if_pos h1]
      exact List.chain'_cons.mpr ⟨h1, hch⟩
    · by_cases h2 : k = j
      · simpa [insertKey, h1, h2] using hch
      · simp only [insertKey, if_neg h1, if_neg h2]
        have hjk : j < k := by omega
        have htail : List.Chain' (fun a b => a < b) js := hch.tail
        refine List.chain'_cons'.mpr ⟨?_, ih htail⟩
        intro b hb
        cases js with
        | nil => simp [insertKey] at hb; omega
        | cons j2 js2 =>
          have hj2 : j < j2 := (List.chain'_cons.mp hch).1
          by_cases g1 : k < j2
          · simp [insertKey, g1] at hb; omega
          · by_cases g2 : k = j2
            · simp [insertKey, g1, g2] at hb; omega
            · simp [insertKey, g1, g2] at hb; omega

theorem chain_foldl_insertKey :
    ∀ (l acc : List ℕ), List.Chain' (fun a b => a < b) acc →
      List.Chain' (fun a b => a < b) (l.foldl (fun acc j => insertKey j acc) acc) := by
  intro l
  induction l with
  | nil => intro acc h; exact h
  | cons j js ih => intro acc h; exact ih (insertKey j acc) (chain_insertKey j acc h)

theorem chain_lineKeys (toks : List Tok) :
    List.Chain' (fun a b => a < b) (lineKeys toks) :=
  chain_foldl_insertKey _ [] List.chain'_nil

/-- C3 (amended): the grouper keys logical lines by line_num ALONE — any
two kept tokens with equal line_num land in the same group, whatever their
block and paragraph indices — each group holding the tokens of its key in
full-key sorted order, and the groups are walked in strictly increasing
line_num order; group_lines is exactly the space-join of these groups. -/
theorem group_lines_partition_by_line_only
    (toks : List Tok) (t1 t2 : Tok)
    (h1 : t1 ∈ keptToks toks) (h2 : t2 ∈ keptToks toks)
    (heq : t1.line_num = t2.line_num) :
    (t1 ∈ cellToks toks t1.line_num ∧ t2 ∈ cellToks toks t1.line_num ∧
      t1.line_num ∈ lineKeys toks) ∧
    List.Chain' (fun a b => a < b) (lineKeys toks) ∧
    group_lines toks =
      (lineKeys toks).map (fun k => joinSp ((cellToks toks k).map (fun t => t.text))) := by
  refine ⟨⟨?_, ?_, mem_lineKeys_of_mem toks t1 h1⟩, chain_lineKeys toks, rfl⟩
  · exact List.mem_filter.mpr ⟨mem_sortToks t1 _ h1, by simp⟩
  · exact List.mem_filter.mpr ⟨mem_sortToks t2 _ h2, by simp [heq]⟩

theorem group_lines_partition_by_line_only_app :
    (tokA ∈ cellToks [tokA, tokB] tokA.line_num ∧
      tokB ∈ cellToks [tokA, tokB] tokA.line_num ∧
      tokA.line_num ∈ lineKeys [tokA, tokB]) ∧
    List.Chain' (fun a b => a < b) (lineKeys [tokA, tokB]) ∧
    group_lines [tokA, tokB] =
      (lineKeys [tokA, tokB]).map
        (fun k => joinSp ((cellToks [tokA, tokB] k).map (fun t => t.text))) :=
  group_lines_partition_by_line_only [tokA, tokB] tokA tokB
    (by decide) (by decide) (by decide)

/-- C3 counterexample: two tokens that share line_num but sit in different
blocks are merged into one logical line by the grouper — the partition key
is not the full block-paragraph-line triple. -/
theorem group_lines_merges_blocks_cex :
    tokA.line_num = tokB.line_num ∧ tokA.block_num ≠ tokB.block_num ∧
    group_lines [tokA, tokB] = ["A B".data] ∧
    (group_lines [tokA, tokB]).length = 1 :=
  ⟨rfl, by decide, rfl, rfl⟩

/-- C4 counterexample: with the fractions two and three — both outside the
unit interval — the contract of the claim signals InvalidRegion, but the
source crop performs no validation and returns a band anyway. -/
theorem crop_no_validation_cex :
    ¬((2 : ℚ) ≤ 1) ∧
    crop_spec 100 200 2 3 = .error .invalidRegion ∧
    crop 100 200 2 3 = ⟨0, 400, 100, 600⟩ := by
  refine ⟨by norm_num, ?_, ?_⟩
  · unfold crop_spec
    rw [if_pos]
    right; left; norm_num
  · unfold crop pyInt
    norm_num

/-- C4 (amended): the source crop never signals InvalidRegion — it returns
the full-width band unconditionally — and on every pair of fractions inside
the unit interval with the top fraction below the bottom one its band is
exactly the band the spec contract returns. -/
theorem crop_refines_spec_on_valid (w h : ℕ) (top bot : ℚ)
    (h0 : 0 ≤ top) (h1 : top ≤ 1) (h2 : 0 ≤ bot) (h3 : bot ≤ 1) (h4 : top < bot) :
    crop_spec w h top bot = .ok (crop w h top bot) := by
  unfold crop_spec crop
  rw [if_neg]
  push_neg
  exact ⟨h0, h1, h2, h3, h4⟩

theorem crop_refines_spec_on_valid_app :
    crop_spec 100 200 (1 / 4) (3 / 4) = .ok (crop 100 200 (1 / 4) (3 / 4)) :=
  crop_refines_spec_on_valid 100 200 (1 / 4) (3 / 4)
    (by norm_num) (by norm_num) (by norm_num) (by norm_num) (by norm_num)

/-- C6 counterexample: a header text holding the substring Invoice No: 482
followed by one more digit makes the greedy digit capture return 4823, not
482, so containing the substring does not pin the result. -/
theorem extract_inv_no_482_cex :
    "Invoice No: 482".data ++ "3".data = "Invoice No: 4823".data ∧
    extract_inv_no "Invoice No: 4823".data = some "4823".data ∧
    "4823".data ≠ "482".data :=
  ⟨rfl, rfl, by decide⟩

/-- C6 (amended): when the header text starts with Invoice No: 482 and the
next character, if any, is not a digit, the extractor returns 482; trailing
digits extend the greedy capture and an earlier pattern match elsewhere in
the text can capture a different number. -/
theorem extract_inv_no_482_prefix (rest : List Char)
    (h : ∀ c, rest.head? = some c → c.isDigit = false) :
    extract_inv_no ("Invoice No: 482".data ++ rest) = some "482".data := by
  have htw : rest.takeWhile Char.isDigit = [] := by
    cases rest with
    | nil => rfl
    | cons c t =>
      have hc := h c rfl
      simp [List.takeWhile, hc]
  have key : extract_inv_no ("Invoice No: 482".data ++ rest) =
      some ('4' :: '8' :: '2' :: rest.takeWhile Char.isDigit) := rfl
  rw [key, htw]

theorem extract_inv_no_482_prefix_app :
    extract_inv_no ("Invoice No: 482".data ++ []) = some "482".data :=
  extract_inv_no_482_prefix [] (fun c hc => by cases hc)

theorem tier1_first_label :
    ∀ (lines : List (List Char)) (i : ℕ) (v : List Char),
      (∀ j, j < i → isSellerLabel (lines.getD j []) = false) →
      isSellerLabel (lines.getD i []) = true →
      i < lines.length →
      firstQualifying (lines.drop (i + 1)) = some v →
      tier1 lines = some v := by
  intro lines
  induction lines with
  | nil =>
    intro i v _ _ hlen _
    simp at hlen
  | cons ln rest ih =>
    intro i v hj hi hlen hq
    cases i with
    | zero =>
      have hi' : isSellerLabel ln = true := by simpa using hi
      have hq' : firstQualifying rest = some v := by simpa using hq
      simp [tier1, hi', hq']
    | succ i' =>
      have h0 : isSellerLabel ln = false := by simpa using hj 0 (Nat.succ_pos i')
      have hstep : tier1 (ln :: rest) = tier1 rest := by simp [tier1, h0]
      rw [hstep]
      refine ih i' v ?_ ?_ ?_ ?_
      · intro j hjlt
        simpa using hj (j + 1) (Nat.succ_lt_succ hjlt)
      · simpa using hi
      · simpa using hlen
      · simpa using hq

/-- C8: when the first line satisfying the label condition of tier one is a
line whose lowering is exactly the seller label with its colon, the vendor
extractor returns the first subsequent line that is nonempty and does not
start with the counter-party word, already stripped. -/
theorem extract_vendor_seller_label (txt : List Char) (i : ℕ) (v : List Char)
    (hfirst : ∀ j, j < i → isSellerLabel ((linesOf txt).getD j []) = false)
    (hlabel : isSellerLabel ((linesOf txt).getD i []) = true)
    (_heq : lowerStr ((linesOf txt).getD i []) = "seller:".data)
    (hlen : i < (linesOf txt).length)
    (hq : firstQualifying ((linesOf txt).drop (i + 1)) = some v) :
    extract_vendor txt = some v := by
  have h1 : tier1 (linesOf txt) = some v :=
    tier1_first_label (linesOf txt) i v hfirst hlabel hlen hq
  simp [extract_vendor, h1]

theorem extract_vendor_seller_label_app :
    extract_vendor "Seller:\nClient\nAcme Corp".data = some "Acme Corp".data :=
  extract_vendor_seller_label "Seller:\nClient\nAcme Corp".data 0 "Acme Corp".data
    (fun j hj => absurd hj (Nat.not_lt_zero j)) rfl rfl (by decide) rfl

end Invoice
